import Mathlib

/-!
Verification of the AI-assistance layer of the rep HTTP-inspection tool
(src/js/modules/ai.js and src/js/modules/attack-surface.js).

Strings are modelled as lists of characters (`Str`).  JavaScript values
produced by `JSON.parse` are modelled by `JSVal`; JSON numbers are modelled
as integers (the categorisation payloads of this program only carry integer
indices).  Property access on `null`/`undefined`, which throws a `TypeError`
in JavaScript, is modelled by `Option` (`none` = a thrown exception that the
enclosing `try` block of the source swallows).
-/

namespace RepAI

abbrev Str := List Char

/-- Backtick character, written by code point to keep source lines plain. -/
def btick : Char := Char.ofNat 96

/-- Left brace character. -/
def lbrace : Char := Char.ofNat 123

/-- Right brace character. -/
def rbrace : Char := Char.ofNat 125

/-- JSON / JavaScript whitespace used by the model for `trim`, the regex
class and `JSON.parse` (space, tab, newline, carriage return). -/
def isWs (c : Char) : Bool :=
  c = ' ' || c = '\t' || c = '\n' || c = '\r'

/-- Strip trailing whitespace (the effect of a trailing greedy whitespace
class in the fence regex, and the right half of `String.prototype.trim`). -/
def dropTrailingWs : Str → Str
  | [] => []
  | c :: cs =>
    match dropTrailingWs cs with
    | [] => if isWs c then [] else [c]
    | r => c :: r

/-- Model of `String.prototype.trim`. -/
def jsTrim (s : Str) : Str := dropTrailingWs (s.dropWhile isWs)

/-- Model of the split of a chunk on the newline character (JavaScript
`String.prototype.split` with a one-character separator: the empty string
splits to one empty piece, a trailing separator yields a final empty
piece). -/
def splitNl : Str → List Str
  | [] => [[]]
  | c :: cs =>
    if c = '\n' then [] :: splitNl cs
    else
      match splitNl cs with
      | [] => [[c]]
      | l :: ls => (c :: l) :: ls

/-- JavaScript values as produced by `JSON.parse`, plus `jundefined` for the
`undefined` returned by a missing property. -/
inductive JSVal where
  | jundefined : JSVal
  | jnull : JSVal
  | jbool : Bool → JSVal
  | jnum : Int → JSVal
  | jstr : Str → JSVal
  | jarr : List JSVal → JSVal
  | jobj : List (Str × JSVal) → JSVal

mutual

/-- Decidable equality on `JSVal` (written by hand: the automatic deriving
does not support this nested inductive). -/
def decEqJSVal : (a b : JSVal) → Decidable (a = b)
  | .jundefined, .jundefined => isTrue rfl
  | .jundefined, .jnull => isFalse nofun
  | .jundefined, .jbool _ => isFalse nofun
  | .jundefined, .jnum _ => isFalse nofun
  | .jundefined, .jstr _ => isFalse nofun
  | .jundefined, .jarr _ => isFalse nofun
  | .jundefined, .jobj _ => isFalse nofun
  | .jnull, .jundefined => isFalse nofun
  | .jnull, .jnull => isTrue rfl
  | .jnull, .jbool _ => isFalse nofun
  | .jnull, .jnum _ => isFalse nofun
  | .jnull, .jstr _ => isFalse nofun
  | .jnull, .jarr _ => isFalse nofun
  | .jnull, .jobj _ => isFalse nofun
  | .jbool _, .jundefined => isFalse nofun
  | .jbool _, .jnull => isFalse nofun
  | .jbool x, .jbool y =>
    if h : x = y then isTrue (h ▸ rfl) else isFalse (fun hh => h (by injection hh))
  | .jbool _, .jnum _ => isFalse nofun
  | .jbool _, .jstr _ => isFalse nofun
  | .jbool _, .jarr _ => isFalse nofun
  | .jbool _, .jobj _ => isFalse nofun
  | .jnum _, .jundefined => isFalse nofun
  | .jnum _, .jnull => isFalse nofun
  | .jnum _, .jbool _ => isFalse nofun
  | .jnum x, .jnum y =>
    if h : x = y then isTrue (h ▸ rfl) else isFalse (fun hh => h (by injection hh))
  | .jnum _, .jstr _ => isFalse nofun
  | .jnum _, .jarr _ => isFalse nofun
  | .jnum _, .jobj _ => isFalse nofun
  | .jstr _, .jundefined => isFalse nofun
  | .jstr _, .jnull => isFalse nofun
  | .jstr _, .jbool _ => isFalse nofun
  | .jstr _, .jnum _ => isFalse nofun
  | .jstr x, .jstr y =>
    if h : x = y then isTrue (h ▸ rfl) else isFalse (fun hh => h (by injection hh))
  | .jstr _, .jarr _ => isFalse nofun
  | .jstr _, .jobj _ => isFalse nofun
  | .jarr _, .jundefined => isFalse nofun
  | .jarr _, .jnull => isFalse nofun
  | .jarr _, .jbool _ => isFalse nofun
  | .jarr _, .jnum _ => isFalse nofun
  | .jarr _, .jstr _ => isFalse nofun
  | .jarr xs, .jarr ys =>
    match decEqJSValList xs ys with
    | isTrue h => isTrue (h ▸ rfl)
    | isFalse h => isFalse (fun hh => h (by injection hh))
  | .jarr _, .jobj _ => isFalse nofun
  | .jobj _, .jundefined => isFalse nofun
  | .jobj _, .jnull => isFalse nofun
  | .jobj _, .jbool _ => isFalse nofun
  | .jobj _, .jnum _ => isFalse nofun
  | .jobj _, .jstr _ => isFalse nofun
  | .jobj _, .jarr _ => isFalse nofun
  | .jobj fs, .jobj gs =>
    match decEqJSValFields fs gs with
    | isTrue h => isTrue (h ▸ rfl)
    | isFalse h => isFalse (fun hh => h (by injection hh))

/-- Decidable equality on lists of `JSVal`. -/
def decEqJSValList : (xs ys : List JSVal) → Decidable (xs = ys)
  | [], [] => isTrue rfl
  | [], _ :: _ => isFalse nofun
  | _ :: _, [] => isFalse nofun
  | x :: xs, y :: ys =>
    match decEqJSVal x y with
    | isFalse h => isFalse (fun hh => h (by injection hh))
    | isTrue h1 =>
      match decEqJSValList xs ys with
      | isTrue h2 => isTrue (by rw [h1, h2])
      | isFalse h2 => isFalse (fun hh => h2 (by injection hh))

/-- Decidable equality on object field lists. -/
def decEqJSValFields : (fs gs : List (Str × JSVal)) → Decidable (fs = gs)
  | [], [] => isTrue rfl
  | [], _ :: _ => isFalse nofun
  | _ :: _, [] => isFalse nofun
  | (k1, v1) :: fs, (k2, v2) :: gs =>
    if hk : k1 = k2 then
      match decEqJSVal v1 v2 with
      | isFalse h => isFalse (fun hh => by
          injection hh with hh1 _
          injection hh1 with _ hv
          exact h hv)
      | isTrue h1 =>
        match decEqJSValFields fs gs with
        | isTrue h2 => isTrue (by rw [hk, h1, h2])
        | isFalse h2 => isFalse (fun hh => h2 (by injection hh))
    else
      isFalse (fun hh => by
        injection hh with hh1 _
        injection hh1 with hk2 _
        exact hk hk2)

end

instance : DecidableEq JSVal := decEqJSVal

/-- Association-list update with JavaScript object-assignment semantics: an
existing key keeps its position and gets the new value, a new key is
appended. -/
def upsert {β : Type} : List (Str × β) → Str → β → List (Str × β)
  | [], k, v => [(k, v)]
  | (k2, v2) :: rest, k, v =>
    if k2 = k then (k2, v) :: rest else (k2, v2) :: upsert rest k v

/-- Association-list lookup. -/
def alookup {β : Type} : List (Str × β) → Str → Option β
  | [], _ => none
  | (k2, v) :: rest, k => if k2 = k then some v else alookup rest k

/-- JavaScript property read `v[k]` for the (non-numeric) keys this program
uses.  `none` models the `TypeError` thrown when the receiver is `null` or
`undefined`; a missing property reads as `jundefined`. -/
def jsGet (v : JSVal) (k : Str) : Option JSVal :=
  match v with
  | .jundefined => none
  | .jnull => none
  | .jobj fs => some ((alookup fs k).getD .jundefined)
  | _ => some .jundefined

/-- JavaScript indexed read `v[n]` for a numeric literal index. -/
def jsIndex (v : JSVal) (n : Nat) : Option JSVal :=
  match v with
  | .jundefined => none
  | .jnull => none
  | .jarr xs => some ((xs.get? n).getD .jundefined)
  | .jstr s => some (if h : n < s.length then .jstr [s.get ⟨n, h⟩] else .jundefined)
  | .jobj fs => some ((alookup fs (toString n).toList).getD .jundefined)
  | _ => some .jundefined

/-- JavaScript truthiness. -/
def jsTruthy : JSVal → Bool
  | .jundefined => false
  | .jnull => false
  | .jbool b => b
  | .jnum n => decide (n ≠ 0)
  | .jstr s => decide (s ≠ [])
  | .jarr _ => true
  | .jobj _ => true

/-- Comma-join used by `Array.prototype.toString`. -/
def joinComma (xs : List Str) : Str := (List.intersperse [','] xs).flatten

mutual

/-- JavaScript `String(v)` conversion (used by `+=` on a string and by
object property keys). -/
def jsToString : JSVal → Str
  | .jundefined => "undefined".toList
  | .jnull => "null".toList
  | .jbool true => "true".toList
  | .jbool false => "false".toList
  | .jnum n => (toString n).toList
  | .jstr s => s
  | .jarr xs => joinComma (jsToStringArr xs)
  | .jobj _ => "[object Object]".toList

/-- Elementwise conversion inside an array (`null`/`undefined` print empty). -/
def jsToStringArr : List JSVal → List Str
  | [] => []
  | v :: vs =>
    (match v with
     | .jnull => []
     | .jundefined => []
     | w => jsToString w) :: jsToStringArr vs

end

/-- Hexadecimal digit value. -/
def hexDigit? (c : Char) : Option Nat :=
  if '0' ≤ c ∧ c ≤ '9' then some (c.toNat - 48)
  else if 'a' ≤ c ∧ c ≤ 'f' then some (c.toNat - 87)
  else if 'A' ≤ c ∧ c ≤ 'F' then some (c.toNat - 55)
  else none

/-- Parse the body of a JSON string literal (after the opening quote),
returning the decoded characters and the input after the closing quote. -/
def parseJStr : Str → Option (Str × Str)
  | [] => none
  | c :: cs =>
    if c = '"' then some ([], cs)
    else if c = '\\' then
      match cs with
      | [] => none
      | e :: cs2 =>
        let simpleEsc : Option Char :=
          if e = '"' then some '"'
          else if e = '\\' then some '\\'
          else if e = '/' then some '/'
          else if e = 'b' then some (Char.ofNat 8)
          else if e = 'f' then some (Char.ofNat 12)
          else if e = 'n' then some '\n'
          else if e = 'r' then some '\r'
          else if e = 't' then some '\t'
          else none
        match simpleEsc with
        | some ch => (parseJStr cs2).map (fun p => (ch :: p.1, p.2))
        | none =>
          if e = 'u' then
            match cs2 with
            | h1 :: h2 :: h3 :: h4 :: cs3 =>
              match hexDigit? h1, hexDigit? h2, hexDigit? h3, hexDigit? h4 with
              | some a, some b, some c4, some d =>
                (parseJStr cs3).map (fun p =>
                  (Char.ofNat (((a * 16 + b) * 16 + c4) * 16 + d) :: p.1, p.2))
              | _, _, _, _ => none
            | _ => none
          else none
    else if c.toNat < 32 then none
    else (parseJStr cs).map (fun p => (c :: p.1, p.2))

/-- Digit run to a natural number. -/
def digitsToNat (ds : Str) : Nat :=
  ds.foldl (fun n c => n * 10 + (c.toNat - 48)) 0

/-- Parse a JSON natural-number literal (no leading zeros). -/
def parseJNat (s : Str) : Option (Nat × Str) :=
  match s with
  | [] => none
  | c :: cs =>
    if c = '0' then
      match cs with
      | d :: _ => if d.isDigit then none else some (0, cs)
      | [] => some (0, [])
    else if c.isDigit then
      some (digitsToNat ((c :: cs).takeWhile Char.isDigit),
            (c :: cs).dropWhile Char.isDigit)
    else none

/-- Parse a JSON number.  The model restricts JSON numbers to integers; the
payloads this program parses only carry integer `index` values. -/
def parseJNum (s : Str) : Option (JSVal × Str) :=
  match s with
  | '-' :: rest => (parseJNat rest).map (fun p => (JSVal.jnum (-(p.1 : Int)), p.2))
  | _ => (parseJNat s).map (fun p => (JSVal.jnum (p.1 : Int), p.2))

mutual

/-- Parse one JSON value (fuelled recursion). -/
def parseJVal : Nat → Str → Option (JSVal × Str)
  | 0, _ => none
  | Nat.succ fuel, s =>
    match s with
    | [] => none
    | c :: cs =>
      if c = '"' then (parseJStr cs).map (fun p => (JSVal.jstr p.1, p.2))
      else if c = '[' then
        let cs1 := cs.dropWhile isWs
        match cs1 with
        | ']' :: rest => some (.jarr [], rest)
        | _ => (parseJElems fuel cs1).map (fun p => (JSVal.jarr p.1, p.2))
      else if c = lbrace then
        let cs1 := cs.dropWhile isWs
        match cs1 with
        | [] => none
        | d :: rest =>
          if d = rbrace then some (.jobj [], rest)
          else
            (parseJMembers fuel cs1).map (fun p =>
              (JSVal.jobj (p.1.foldl (fun m kv => upsert m kv.1 kv.2) []), p.2))
      else if c = 't' then
        if "rue".toList.isPrefixOf cs then some (.jbool true, cs.drop 3) else none
      else if c = 'f' then
        if "alse".toList.isPrefixOf cs then some (.jbool false, cs.drop 4) else none
      else if c = 'n' then
        if "ull".toList.isPrefixOf cs then some (.jnull, cs.drop 3) else none
      else parseJNum (c :: cs)

/-- Parse a nonempty comma-separated element list followed by a closing
bracket. -/
def parseJElems : Nat → Str → Option (List JSVal × Str)
  | 0, _ => none
  | Nat.succ fuel, s => do
    let (v, r) ← parseJVal fuel s
    match r.dropWhile isWs with
    | ']' :: r2 => some ([v], r2)
    | ',' :: r2 => (parseJElems fuel (r2.dropWhile isWs)).map (fun p => (v :: p.1, p.2))
    | _ => none

/-- Parse a nonempty object member list followed by a closing brace. -/
def parseJMembers : Nat → Str → Option (List (Str × JSVal) × Str)
  | 0, _ => none
  | Nat.succ fuel, s =>
    match s with
    | [] => none
    | c :: cs =>
      if c = '"' then do
        let (key, r) ← parseJStr cs
        match r.dropWhile isWs with
        | ':' :: r2 => do
          let (v, r3) ← parseJVal fuel (r2.dropWhile isWs)
          match r3.dropWhile isWs with
          | [] => none
          | d :: r4 =>
            if d = rbrace then some ([(key, v)], r4)
            else if d = ',' then do
              let (rest, r5) ← parseJMembers fuel (r4.dropWhile isWs)
              some ((key, v) :: rest, r5)
            else none
        | _ => none
      else none

end

/-- Model of `JSON.parse`: whole-input parse with surrounding whitespace. -/
def jsonParse (s : Str) : Option JSVal :=
  match parseJVal (2 * s.length + 4) (s.dropWhile isWs) with
  | some (v, rest) => if rest.dropWhile isWs = [] then some v else none
  | none => none

/-- Does the string start with three backticks? -/
def isT3 : Str → Bool
  | c1 :: c2 :: c3 :: _ => c1 = btick && c2 = btick && c3 = btick
  | _ => false

/-- Split at the first occurrence of three consecutive backticks: returns the
text before it and the text after it, or `none` when there is none. -/
def breakOnTicks : Str → Option (Str × Str)
  | [] => none
  | c :: cs =>
    if isT3 (c :: cs) then some ([], cs.drop 2)
    else (breakOnTicks cs).map (fun p => (c :: p.1, p.2))

/-- Model of the fence-extraction regex match in `parseCategories`
(attack-surface.js line 87).  The
regex anchors at the first triple backtick, optionally eats a literal
`json` tag, greedily eats whitespace, and the lazy body group ends at the
next triple backtick with the trailing whitespace run absorbed by the
closing whitespace class.  When the first triple backtick has no later
closing triple backtick no match exists at any start position (the skipped
tag and whitespace contain no backtick), so the single attempt of
`fenceMatch` below is faithful. -/
def fenceClose (rest2 : Str) : Option Str :=
  match breakOnTicks (rest2.dropWhile isWs) with
  | none => none
  | some (cap, _) => some (dropTrailingWs cap)

/-- The whole regex match: anchor at the first triple backtick, handle the
optional `json` tag, then delegate to `fenceClose`. -/
def fenceMatch (s : Str) : Option Str :=
  match breakOnTicks s with
  | none => none
  | some (_, rest1) =>
    fenceClose (if "json".toList.isPrefixOf rest1 then rest1.drop 4 else rest1)

/-- Wrap a text in a markdown code fence with the given language tag
(`"json".toList` or `[]`). -/
def wrapFence (tag t : Str) : Str :=
  "```".toList ++ tag ++ '\n' :: (t ++ '\n' :: "```".toList)

/-- Fence-stripping front end of `parseCategories`
(attack-surface.js lines 86-90). -/
def extractJsonText (response : Str) : Str :=
  let jsonText := jsTrim response
  match fenceMatch jsonText with
  | some cap => cap
  | none => jsonText

/-- Record built by `parseCategories` for one array element
(attack-surface.js lines 99-105). -/
structure CategoryRecord where
  index : JSVal
  category : JSVal
  confidence : JSVal
  reasoning : JSVal
  icon : JSVal
deriving DecidableEq

/-- JavaScript `a || b`. -/
def jsOr (v d : JSVal) : JSVal := if jsTruthy v then v else d

/-- One step of the `categories.map` callback.  `none` models the
`TypeError` thrown when the element is `null`/`undefined` (property access
throws), which the enclosing `try` of the source turns into `[]`. -/
def catRecord (cat : JSVal) : Option CategoryRecord := do
  let i ← jsGet cat "index".toList
  let c ← jsGet cat "category".toList
  let cf ← jsGet cat "confidence".toList
  let r ← jsGet cat "reasoning".toList
  let ic ← jsGet cat "icon".toList
  pure ⟨i, jsOr c (.jstr "Uncategorized".toList), jsOr cf (.jstr "low".toList),
        jsOr r (.jstr "No reasoning provided".toList), jsOr ic (.jstr "❓".toList)⟩

/-- Model of `parseCategories` (attack-surface.js lines 83-110): trim,
strip one markdown fence, `JSON.parse`, require an array, map elements to
records with defaults; any failure inside the `try` yields `[]`. -/
def parseCategories (response : Str) : List CategoryRecord :=
  match jsonParse (extractJsonText response) with
  | some (.jarr cats) =>
    match cats.mapM catRecord with
    | some rs => rs
    | none => []
  | _ => []

/-- Append one recognized delta to the accumulator state and record the
`onUpdate` call made with the new cumulative text (`fullText += text;
onUpdate(fullText)`). -/
def stepAppend (st : Str × List Str) (f : Str) : Str × List Str :=
  (st.1 ++ f, st.2 ++ [st.1 ++ f])

/-- Per-line extraction of the Anthropic stream reader
(ai.js lines 85-99): `data: ` prefix, `[DONE]` sentinel, `JSON.parse`
inside `try`, then the `content_block_delta` / truthy `delta.text` check.
`none` covers every branch that contributes no text fragment. -/
def claudeLineFrag (line : Str) : Option Str :=
  if "data: ".toList.isPrefixOf line then
    let dataStr := line.drop 6
    if dataStr = "[DONE]".toList then none
    else
      match jsonParse dataStr with
      | none => none
      | some data =>
        match jsGet data "type".toList with
        | none => none
        | some t =>
          if t = .jstr "content_block_delta".toList then
            match jsGet data "delta".toList with
            | none => none
            | some delta =>
              match jsGet delta "text".toList with
              | none => none
              | some tx => if jsTruthy tx then some (jsToString tx) else none
          else none
  else none

/-- The body of the Anthropic read loop for one line (the mutation of
`fullText` and the `onUpdate` call). -/
def claudeStep (st : Str × List Str) (line : Str) : Str × List Str :=
  match claudeLineFrag line with
  | some f => stepAppend st f
  | none => st

/-- The fragments of one line as a list (zero or one element). -/
def claudeLineDeltas (line : Str) : List Str :=
  match claudeLineFrag line with
  | some f => [f]
  | none => []

/-- Model of the read loop of `streamExplanationFromClaude`
(ai.js lines 76-103), identical to the loop of
`streamExplanationFromClaudeWithSystem` (lines 131-160).  The input is the
list of decoded text chunks (the `TextDecoder` is stateful across chunks,
so byte-level splits of multi-byte characters are already resolved at this
level); the result is the final `fullText` together with the list of
arguments passed to `onUpdate`, in call order. -/
def streamExplanationFromClaude (chunks : List Str) : Str × List Str :=
  chunks.foldl (fun st chunk => (splitNl chunk).foldl claudeStep st) ([], [])

/-- Iteration over `data.candidates[0].content.parts`
(ai.js lines 208-213): each truthy `part.text` is appended; a `null` or
`undefined` part throws and ends the line (fragments already appended are
kept). -/
def geminiPartFrags : List JSVal → List Str
  | [] => []
  | p :: ps =>
    match jsGet p "text".toList with
    | none => []
    | some tx =>
      if jsTruthy tx then jsToString tx :: geminiPartFrags ps
      else geminiPartFrags ps

/-- Per-line extraction of the Gemini stream reader (ai.js lines 200-218):
`data: ` prefix, trim, skip empty, `JSON.parse` inside `try`, the
`data.candidates && data.candidates[0]?.content?.parts` guard, then the
`for (const part of ...)` loop.  A line may contribute several fragments;
iterating a non-array truthy `parts` value contributes none (a string
iterates into one-character strings whose `text` is `undefined`; other
values throw, caught by the `try`). -/
def geminiLineFrags (line : Str) : List Str :=
  if "data: ".toList.isPrefixOf line then
    let dataStr := jsTrim (line.drop 6)
    if dataStr = [] then []
    else
      match jsonParse dataStr with
      | none => []
      | some data =>
        match jsGet data "candidates".toList with
        | none => []
        | some cands =>
          if jsTruthy cands then
            match jsIndex cands 0 with
            | none => []
            | some c0 =>
              let parts : Option JSVal :=
                match c0 with
                | .jundefined => some .jundefined
                | .jnull => some .jundefined
                | _ =>
                  match jsGet c0 "content".toList with
                  | none => none
                  | some content =>
                    match content with
                    | .jundefined => some .jundefined
                    | .jnull => some .jundefined
                    | _ => jsGet content "parts".toList
              match parts with
              | none => []
              | some ps =>
                if jsTruthy ps then
                  match ps with
                  | .jarr xs => geminiPartFrags xs
                  | _ => []
                else []
          else []
  else []

/-- Model of the read loop of `streamExplanationFromGemini`
(ai.js lines 191-222), identical to the loop of
`streamExplanationFromGeminiWithSystem` (lines 251-280). -/
def streamExplanationFromGemini (chunks : List Str) : Str × List Str :=
  chunks.foldl
    (fun st chunk =>
      (splitNl chunk).foldl (fun st line => (geminiLineFrags line).foldl stepAppend st) st)
    ([], [])

/-- Generic shape shared by both read loops, used to state and prove the
closed forms once. -/
def readFold (ld : Str → List Str) (chunks : List Str) : Str × List Str :=
  chunks.foldl
    (fun st chunk =>
      (splitNl chunk).foldl (fun st line => (ld line).foldl stepAppend st) st)
    ([], [])

/-- Specification vocabulary: the running concatenations of a delta list
starting from accumulated text `a` (the successive `onUpdate` arguments). -/
def cumulsFrom (a : Str) : List Str → List Str
  | [] => []
  | d :: ds => (a ++ d) :: cumulsFrom (a ++ d) ds

/-- All deltas a reader recognizes across a chunk list, in arrival order. -/
def streamDeltas (ld : Str → List Str) (chunks : List Str) : List Str :=
  chunks.flatMap (fun c => (splitNl c).flatMap ld)

/-- One user message of an Anthropic request. -/
structure ChatMessage where
  role : Str
  content : Str
deriving DecidableEq

/-- JSON body sent to `https://api.anthropic.com/v1/messages`. -/
structure AnthropicRequestBody where
  model : Str
  max_tokens : Nat
  system : Str
  stream : Bool
  messages : List ChatMessage
deriving DecidableEq

/-- Fixed system prompt of the plain explanation path (ai.js line 48). -/
def claudeExplainSystemPrompt : Str :=
  "You are an expert security researcher and web developer. Explain the following HTTP request in detail, highlighting interesting parameters, potential security implications, and what this request is likely doing. Be concise but thorough.".toList

/-- Request body built by `streamExplanationFromClaude`
(ai.js lines 58-66). -/
def streamExplanationFromClaudeBody (model request : Str) : AnthropicRequestBody :=
  { model := model
    max_tokens := 1024
    system := claudeExplainSystemPrompt
    stream := true
    messages := [⟨"user".toList, "Explain this HTTP request:\n\n".toList ++ request⟩] }

/-- Request body built by `streamExplanationFromClaudeWithSystem`
(ai.js lines 115-123). -/
def streamExplanationFromClaudeWithSystemBody
    (model systemPrompt userPrompt : Str) : AnthropicRequestBody :=
  { model := model
    max_tokens := 2048
    system := systemPrompt
    stream := true
    messages := [⟨"user".toList, userPrompt⟩] }

/-- One `parts` entry of a Gemini request. -/
structure GeminiPart where
  text : Str
deriving DecidableEq

/-- One `contents` entry of a Gemini request. -/
structure GeminiContent where
  parts : List GeminiPart
deriving DecidableEq

/-- `generationConfig` of a Gemini request. -/
structure GeminiGenerationConfig where
  temperature : Rat
  maxOutputTokens : Nat
deriving DecidableEq

/-- JSON body sent to the Gemini `streamGenerateContent` endpoint. -/
structure GeminiRequestBody where
  contents : List GeminiContent
  generationConfig : GeminiGenerationConfig
deriving DecidableEq

/-- Request body built by `streamExplanationFromGemini`
(ai.js lines 164-181). -/
def streamExplanationFromGeminiBody (request : Str) : GeminiRequestBody :=
  { contents :=
      [⟨[⟨claudeExplainSystemPrompt ++ "\n\nExplain this HTTP request:\n\n".toList ++ request⟩]⟩]
    generationConfig := { temperature := 7 / 10, maxOutputTokens := 2048 } }

/-- Request body built by `streamExplanationFromGeminiWithSystem`
(ai.js lines 226-241). -/
def streamExplanationFromGeminiWithSystemBody (systemPrompt userPrompt : Str) : GeminiRequestBody :=
  { contents := [⟨[⟨systemPrompt ++ "\n\n".toList ++ userPrompt⟩]⟩]
    generationConfig := { temperature := 7 / 10, maxOutputTokens := 4096 } }

/-- One captured request header. -/
structure ReqHeader where
  name : Str
  value : Str
deriving DecidableEq

/-- The part of a captured request record that `buildAnalysisPrompt`
reads. -/
structure RequestRecord where
  url : Str
  method : Str
  headers : List ReqHeader
deriving DecidableEq

/-- ASCII lowercasing, model of `String.prototype.toLowerCase` for the
header names involved. -/
def lowerStr (s : Str) : Str := s.map Char.toLower

/-- The sensitive-header deny-list of `buildAnalysisPrompt`
(attack-surface.js line 34). -/
def headerDenyList : List Str :=
  ["cookie".toList, "authorization".toList, "x-api-key".toList]

/-- The `headers` field of one request summary built by
`buildAnalysisPrompt` (attack-surface.js lines 27 and 34): header names
with the deny-listed names removed, case-insensitively, keeping order. -/
def summaryHeaders (req : RequestRecord) : List Str :=
  (req.headers.map ReqHeader.name).filter
    (fun h => !(headerDenyList.contains (lowerStr h)))

/-- Provider configuration as returned by `getAISettings` (ai.js lines
3-19); modelled as an explicit input since the source reads it from
`localStorage`. -/
structure AISettings where
  provider : Str
  apiKey : Str
  model : Str
deriving DecidableEq

/-- The per-index value stored in the mapping returned by
`analyzeAttackSurface` (attack-surface.js lines 168-173): only the four
descriptive fields, never the numeric index. -/
structure CatEntry where
  category : JSVal
  confidence : JSVal
  reasoning : JSVal
  icon : JSVal
deriving DecidableEq

/-- Projection of a parsed record to the stored map value. -/
def catToEntry (c : CategoryRecord) : CatEntry :=
  ⟨c.category, c.confidence, c.reasoning, c.icon⟩

/-- Progress events emitted through `onProgress` by `analyzeAttackSurface`,
in order. -/
inductive ProgressEvent where
  | buildingPrompt : Nat → ProgressEvent
  | analyzing : Nat → ProgressEvent
  | streaming : Str → ProgressEvent
  | parsing : Str → ProgressEvent
  | complete : List (Str × CatEntry) → ProgressEvent
deriving DecidableEq

/-- The `categoryMap` construction of `analyzeAttackSurface`
(attack-surface.js lines 166-174): a JavaScript object keyed by
`String(cat.index)`, assigned in order, so a later record with the same
index overwrites an earlier one. -/
def buildCategoryMap (cats : List CategoryRecord) : List (Str × CatEntry) :=
  cats.foldl (fun m c => upsert m (jsToString c.index) (catToEntry c)) []

/-- Specification vocabulary: the last record of the list whose stringified
index is `k`. -/
def lastMatch (cats : List CategoryRecord) (k : Str) : Option CategoryRecord :=
  match cats with
  | [] => none
  | c :: rest =>
    match lastMatch rest k with
    | some c2 => some c2
    | none => if jsToString c.index = k then some c else none

/-- The error message thrown on a missing API key
(attack-surface.js line 122). -/
def missingKeyError : Str :=
  "AI API key not configured. Please set it in Settings.".toList

/-- Model of `analyzeAttackSurface` (attack-surface.js lines 118-181).
The network interaction is modelled by `updates`, the sequence of
cumulative texts the streaming call passes to its callback; `fullResponse`
is overwritten by each callback, so it ends as the last update (or empty).
The result triple carries the returned value (or thrown error), the
ordered `onProgress` events, and the number of network calls issued. -/
def analyzeAttackSurface (settings : AISettings) (requests : List RequestRecord)
    (updates : List Str) :
    Except Str (List (Str × CatEntry)) × List ProgressEvent × Nat :=
  if settings.apiKey = [] then (.error missingKeyError, [], 0)
  else
    let requestBatch := requests.take 50
    let fullResponse := updates.getLastD []
    let categoryMap := buildCategoryMap (parseCategories fullResponse)
    (.ok categoryMap,
     ProgressEvent.buildingPrompt requestBatch.length ::
       ProgressEvent.analyzing requestBatch.length ::
       (updates.map ProgressEvent.streaming ++
        [ProgressEvent.parsing fullResponse, ProgressEvent.complete categoryMap]),
     1)

/-- A complete, well-formed SSE line for the Anthropic reader, newline
terminated (sample input used by concrete theorems). -/
def sampleSseLine : Str :=
  "data: \x7b\"type\":\"content_block_delta\",\"delta\":\x7b\"text\":\"hi\"\x7d\x7d\n".toList

/-! Helper lemmas about the read loops. -/

theorem splitNl_ne_nil (s : Str) : splitNl s ≠ [] := by
  match s with
  | [] => simp [splitNl]
  | c :: cs =>
    simp only [splitNl]
    split
    · simp
    · split <;> simp

theorem splitNl_append (x b : Str) : splitNl (x ++ '\n' :: b) = splitNl x ++ splitNl b := by
  induction x with
  | nil => simp [splitNl]
  | cons c cs ih =>
    by_cases hc : c = '\n'
    · subst hc
      simp [List.append_eq, splitNl, ih]
    · obtain ⟨l, ls, hls⟩ := List.exists_cons_of_ne_nil (splitNl_ne_nil cs)
      simp [List.append_eq, splitNl, hc, ih, hls]

theorem foldl_stepAppend (fs : List Str) : ∀ (a : Str) (u : List Str),
    fs.foldl stepAppend (a, u) = (a ++ fs.flatten, u ++ cumulsFrom a fs) := by
  induction fs with
  | nil => intro a u; simp [cumulsFrom]
  | cons f fs ih =>
    intro a u
    simp only [List.foldl_cons, stepAppend, cumulsFrom, List.flatten_cons]
    rw [ih]
    simp [List.append_assoc]

theorem cumulsFrom_append (xs : List Str) : ∀ (ys : List Str) (a : Str),
    cumulsFrom a (xs ++ ys) = cumulsFrom a xs ++ cumulsFrom (a ++ xs.flatten) ys := by
  induction xs with
  | nil => intro ys a; simp [cumulsFrom]
  | cons x xs ih =>
    intro ys a
    simp [List.append_eq, cumulsFrom, ih, List.append_assoc]

theorem cumulsFrom_length (ds : List Str) : ∀ a, (cumulsFrom a ds).length = ds.length := by
  induction ds with
  | nil => intro a; rfl
  | cons d ds ih => intro a; simp [cumulsFrom, ih]

theorem foldl_lines (ld : Str → List Str) (lines : List Str) : ∀ (a : Str) (u : List Str),
    lines.foldl (fun st line => (ld line).foldl stepAppend st) (a, u) =
      (a ++ (lines.flatMap ld).flatten, u ++ cumulsFrom a (lines.flatMap ld)) := by
  induction lines with
  | nil => intro a u; simp [cumulsFrom]
  | cons line lines ih =>
    intro a u
    simp only [List.foldl_cons, foldl_stepAppend, ih, List.flatMap_cons, List.flatten_append,
      cumulsFrom_append, List.append_assoc]

theorem readFold_closed (ld : Str → List Str) (chunks : List Str) :
    readFold ld chunks =
      ((streamDeltas ld chunks).flatten, cumulsFrom [] (streamDeltas ld chunks)) := by
  suffices h : ∀ (a : Str) (u : List Str),
      chunks.foldl
        (fun st chunk => (splitNl chunk).foldl (fun st line => (ld line).foldl stepAppend st) st)
        (a, u) =
        (a ++ (streamDeltas ld chunks).flatten, u ++ cumulsFrom a (streamDeltas ld chunks)) by
    simpa [readFold] using h [] []
  induction chunks with
  | nil => intro a u; simp [streamDeltas, cumulsFrom]
  | cons c rest ih =>
    intro a u
    simp only [List.foldl_cons, foldl_lines, ih, streamDeltas, List.flatMap_cons,
      List.flatten_append, cumulsFrom_append, List.append_assoc]

theorem claude_eq_readFold (chunks : List Str) :
    streamExplanationFromClaude chunks = readFold claudeLineDeltas chunks := by
  unfold streamExplanationFromClaude readFold
  apply List.foldl_ext
  intro st chunk _
  apply List.foldl_ext
  intro st2 line _
  cases h : claudeLineFrag line <;>
    simp [claudeStep, claudeLineDeltas, h]

theorem gemini_eq_readFold (chunks : List Str) :
    streamExplanationFromGemini chunks = readFold geminiLineFrags chunks := rfl

theorem claudeLineDeltas_nil : claudeLineDeltas [] = [] := by decide

theorem streamDeltas_join (ld : Str → List Str) (hnil : ld [] = [])
    (chunks : List Str) (h : ∀ c ∈ chunks, ∃ a, c = a ++ ['\n']) :
    streamDeltas ld chunks = streamDeltas ld [chunks.flatten] := by
  induction chunks with
  | nil => simp [streamDeltas, splitNl, hnil]
  | cons c rest ih =>
    obtain ⟨a, rfl⟩ := h c (List.mem_cons_self c rest)
    have hrest := ih (fun c hc => h c (List.mem_cons_of_mem _ hc))
    have hflat : (a ++ ['\n']) ++ rest.flatten = a ++ '\n' :: rest.flatten := by
      simp [List.append_assoc]
    simp only [streamDeltas, List.flatMap_cons, List.flatMap_nil, List.append_nil] at hrest ⊢
    rw [List.flatten_cons, hflat, splitNl_append, splitNl_append, List.flatMap_append,
      List.flatMap_append, hrest]
    simp [splitNl, hnil]

/-! Claim theorems. -/

/-- Claim C1, counterexample: the extraction is not invariant under chunk
boundaries.  The single well-formed SSE line `sampleSseLine`, processed as
one chunk, yields the fragment `hi`; the same bytes split into two chunks
at offset 20 (inside the `data: ` line) yield nothing, because the reader
splits each chunk on newlines independently and never re-assembles a line
across chunks. -/
theorem stream_chunk_split_counterexample :
    streamExplanationFromClaude [sampleSseLine.take 20, sampleSseLine.drop 20] ≠
      streamExplanationFromClaude [sampleSseLine.take 20 ++ sampleSseLine.drop 20] := by
  decide

/-- Claim C1, amended: the final accumulated text (and the whole update
trace) is unchanged by chunk boundaries provided every chunk ends at a line
boundary (each chunk is newline-terminated); a boundary inside a `data: `
line can instead silently drop the fragment of that line, as the counterexample
shows.  Multi-byte characters are handled below the modelled level: the
source carries `TextDecoder` state across chunks (`stream: true`), so the
model works on decoded text. -/
theorem stream_line_boundary_invariance (chunks : List Str)
    (h : ∀ c ∈ chunks, ∃ a, c = a ++ ['\n']) :
    streamExplanationFromClaude chunks = streamExplanationFromClaude [chunks.flatten] := by
  rw [claude_eq_readFold, claude_eq_readFold, readFold_closed, readFold_closed,
    streamDeltas_join claudeLineDeltas claudeLineDeltas_nil chunks h]

/-- Witness for the amended C1 theorem at two concrete newline-terminated
chunks. -/
theorem stream_line_boundary_invariance_witness :
    streamExplanationFromClaude [sampleSseLine, "data: [DONE]\n".toList] =
      streamExplanationFromClaude
        [([sampleSseLine, "data: [DONE]\n".toList] : List Str).flatten] := by
  apply stream_line_boundary_invariance
  intro c hc
  simp only [List.mem_cons, List.not_mem_nil, or_false] at hc
  rcases hc with rfl | rfl
  · exact ⟨sampleSseLine.dropLast, by decide⟩
  · exact ⟨"data: [DONE]".toList, by decide⟩

/-- Claim C2: for both providers the read loop is exactly the accumulator
the specification describes.  The final text is the concatenation of all
recognized deltas in arrival order; the `onUpdate` trace (second
component) is the list of running concatenations, so each call extends the
previous text by exactly one delta (hence the accumulated text is
monotonically non-decreasing), and there is exactly one call per
recognized delta. -/
theorem stream_accumulator_invariant (chunks : List Str) :
    streamExplanationFromClaude chunks =
      ((streamDeltas claudeLineDeltas chunks).flatten,
        cumulsFrom [] (streamDeltas claudeLineDeltas chunks)) ∧
    (streamExplanationFromClaude chunks).2.length =
      (streamDeltas claudeLineDeltas chunks).length ∧
    streamExplanationFromGemini chunks =
      ((streamDeltas geminiLineFrags chunks).flatten,
        cumulsFrom [] (streamDeltas geminiLineFrags chunks)) ∧
    (streamExplanationFromGemini chunks).2.length =
      (streamDeltas geminiLineFrags chunks).length := by
  refine ⟨?_, ?_, ?_, ?_⟩
  · rw [claude_eq_readFold, readFold_closed]
  · rw [claude_eq_readFold, readFold_closed]; exact cumulsFrom_length _ []
  · rw [gemini_eq_readFold, readFold_closed]
  · rw [gemini_eq_readFold, readFold_closed]; exact cumulsFrom_length _ []

/-- Claim C4: a `data: ` line whose payload is the `[DONE]` sentinel, is
empty, or fails JSON decoding contributes no fragment (and, the model
being total, raises no error), and the loop then processes a following
well-formed `data: ` line normally. -/
theorem stream_payload_tolerance (d l2 f : Str) (st : Str × List Str)
    (h : d = "[DONE]".toList ∨ d = [] ∨ jsonParse d = none) :
    claudeLineFrag ("data: ".toList ++ d) = none ∧
    (claudeLineFrag l2 = some f →
      [("data: ".toList ++ d), l2].foldl claudeStep st = stepAppend st f) := by
  have hlen : ("data: ".toList).length = 6 := by decide
  have hdrop : ("data: ".toList ++ d).drop 6 = d := by
    rw [← hlen]; exact List.drop_left _ _
  have hpre : "data: ".toList.isPrefixOf ("data: ".toList ++ d) = true :=
    List.isPrefixOf_iff_prefix.mpr (List.prefix_append _ _)
  have hfrag : claudeLineFrag ("data: ".toList ++ d) = none := by
    unfold claudeLineFrag
    rw [hpre, if_pos rfl, hdrop]
    rcases h with rfl | rfl | hp
    · simp
    · simp [jsonParse, parseJVal]
    · by_cases hdone : d = "[DONE]".toList
      · simp [hdone]
      · simp [hdone, hp]
  refine ⟨hfrag, fun h2 => ?_⟩
  have hb : claudeStep st ("data: ".toList ++ d) = st := by
    unfold claudeStep; rw [hfrag]
  have hg : claudeStep st l2 = stepAppend st f := by
    unfold claudeStep; rw [h2]
  simp only [List.foldl_cons, List.foldl_nil, hb, hg]

/-- Witness for C4 at the `[DONE]` sentinel followed by a well-formed
line. -/
theorem stream_payload_tolerance_witness :
    claudeLineFrag ("data: ".toList ++ "[DONE]".toList) = none ∧
    [("data: ".toList ++ "[DONE]".toList), sampleSseLine.dropLast].foldl claudeStep ([], []) =
      stepAppend ([], []) "hi".toList :=
  ⟨(stream_payload_tolerance "[DONE]".toList sampleSseLine.dropLast "hi".toList ([], [])
      (Or.inl rfl)).1,
   (stream_payload_tolerance "[DONE]".toList sampleSseLine.dropLast "hi".toList ([], [])
      (Or.inl rfl)).2 (by decide)⟩

/-- Claim C3, counterexample: the plain Anthropic explanation path sends
`max_tokens = 1024` (ai.js line 60), not 2048 as claimed. -/
theorem claude_plain_max_tokens_counterexample :
    ¬ (streamExplanationFromClaudeBody "m".toList "req".toList).max_tokens = 2048 := by
  decide

/-- Claim C3, amended: the Anthropic plain path sends `max_tokens = 1024`
and the system-prompt path 2048; the Gemini plain path sends
`maxOutputTokens = 2048` and the system-prompt path 4096.  The limits are
literals inside the adapters — the body builders take no token parameter,
so callers cannot vary them. -/
theorem token_limits (model request systemPrompt userPrompt : Str) :
    (streamExplanationFromClaudeBody model request).max_tokens = 1024 ∧
    (streamExplanationFromClaudeWithSystemBody model systemPrompt userPrompt).max_tokens = 2048 ∧
    (streamExplanationFromGeminiBody request).generationConfig.maxOutputTokens = 2048 ∧
    (streamExplanationFromGeminiWithSystemBody systemPrompt
        userPrompt).generationConfig.maxOutputTokens = 4096 :=
  ⟨rfl, rfl, rfl, rfl⟩

/-- Claim C9: the prompt summary lists exactly the header names of the request
with every name whose lowercase form is `cookie`, `authorization` or
`x-api-key` removed, in original order; in particular
`["Cookie","X-Api-Key","Accept"]` yields `["Accept"]`. -/
theorem header_redaction (req : RequestRecord) :
    summaryHeaders req =
      (req.headers.map ReqHeader.name).filter
        (fun h => decide (lowerStr h ≠ "cookie".toList ∧ lowerStr h ≠ "authorization".toList ∧
          lowerStr h ≠ "x-api-key".toList)) ∧
    summaryHeaders
        ⟨[], "GET".toList,
          [⟨"Cookie".toList, []⟩, ⟨"X-Api-Key".toList, []⟩, ⟨"Accept".toList, []⟩]⟩ =
      ["Accept".toList] := by
  constructor
  · apply List.filter_congr
    intro x _
    rw [Bool.eq_iff_iff]
    simp [headerDenyList, List.contains, List.elem_iff]
  · decide

/-- Claim C8: with an empty API key for the active provider,
`analyzeAttackSurface` throws the configuration error before any network
call and before any `onProgress` invocation (empty event trace, zero
network calls, no other state in the model). -/
theorem missing_key_fails_fast (s : AISettings) (reqs : List RequestRecord)
    (upds : List Str) (h : s.apiKey = []) :
    analyzeAttackSurface s reqs upds = (.error missingKeyError, [], 0) := by
  simp [analyzeAttackSurface, h]

/-- Witness for C8 at a concrete unset-key configuration. -/
theorem missing_key_fails_fast_witness :
    analyzeAttackSurface ⟨"anthropic".toList, [], "claude-3-5-sonnet-20241022".toList⟩ [] [] =
      (.error missingKeyError, [], 0) :=
  missing_key_fails_fast _ [] [] rfl

theorem alookup_upsert {β : Type} (m : List (Str × β)) (k1 k : Str) (v : β) :
    alookup (upsert m k1 v) k = if k1 = k then some v else alookup m k := by
  induction m with
  | nil => simp [upsert, alookup]
  | cons kv m ih =>
    obtain ⟨k2, v2⟩ := kv
    by_cases h2 : k2 = k1
    · subst h2
      by_cases hk : k2 = k <;> simp [upsert, alookup, hk]
    · by_cases hk : k2 = k
      · subst hk
        have : ¬ k1 = k2 := fun hh => h2 hh.symm
        simp [upsert, alookup, h2, this]
      · simp [upsert, alookup, h2, hk, ih]

theorem buildCategoryMap_foldl (cats : List CategoryRecord) (k : Str) :
    ∀ m : List (Str × CatEntry),
      alookup (cats.foldl (fun m c => upsert m (jsToString c.index) (catToEntry c)) m) k =
        (match lastMatch cats k with
         | some c => some (catToEntry c)
         | none => alookup m k) := by
  induction cats with
  | nil => intro m; simp [lastMatch]
  | cons c rest ih =>
    intro m
    simp only [List.foldl_cons, ih, lastMatch]
    cases hl : lastMatch rest k with
    | some c2 => rfl
    | none =>
      simp only [alookup_upsert]
      by_cases hk : jsToString c.index = k <;> simp [hk]

/-- Claim C10: when the key is set, `analyzeAttackSurface` returns the map
built by `buildCategoryMap` from the parsed final response; looking any
key up in that map gives exactly the projection (`catToEntry`, which keeps
only category, confidence, reasoning and icon — the numeric index is not
stored in the value) of the LAST parsed record whose stringified index is
that key, so records with a duplicate index silently overwrite earlier
ones. -/
theorem analyze_map_entries :
    (∀ (s : AISettings) (reqs : List RequestRecord) (upds : List Str), s.apiKey ≠ [] →
      (analyzeAttackSurface s reqs upds).1 =
        .ok (buildCategoryMap (parseCategories (upds.getLastD [])))) ∧
    (∀ (cats : List CategoryRecord) (k : Str),
      alookup (buildCategoryMap cats) k = (lastMatch cats k).map catToEntry) := by
  constructor
  · intro s reqs upds h
    simp [analyzeAttackSurface, h]
  · intro cats k
    rw [buildCategoryMap, buildCategoryMap_foldl]
    cases lastMatch cats k <;> simp [alookup]

/-- Witness for C10 at a concrete configuration with the key set. -/
theorem analyze_map_entries_witness :
    (analyzeAttackSurface ⟨"anthropic".toList, "sk".toList, "m".toList⟩ [] []).1 =
      .ok (buildCategoryMap (parseCategories (([] : List Str).getLastD []))) :=
  analyze_map_entries.1 _ [] [] (by decide)

/-! Helper lemmas about the fence-stripping front end. -/

theorem breakOnTicks_cons_none {c : Char} {cs : Str} (h : breakOnTicks (c :: cs) = none) :
    isT3 (c :: cs) = false ∧ breakOnTicks cs = none := by
  by_cases h3 : isT3 (c :: cs) = true
  · simp only [breakOnTicks, h3, if_true] at h
    exact Option.noConfusion h
  · have h3f : isT3 (c :: cs) = false := by simpa using h3
    simp only [breakOnTicks, h3f, Bool.false_eq_true, if_false, Option.map_eq_none'] at h
    exact ⟨h3f, h⟩

theorem isT3_of_front {a b : Str} (c : Char) (hab : a <+: b) (h : isT3 (c :: a) = true) :
    isT3 (c :: b) = true := by
  cases a with
  | nil => simp [isT3] at h
  | cons a1 as1 =>
    cases as1 with
    | nil => simp [isT3] at h
    | cons a2 as2 =>
      obtain ⟨tl, rfl⟩ := hab
      simpa [isT3, List.cons_append] using h

theorem breakOnTicks_none_of_front {a : Str} :
    ∀ {b : Str}, a <+: b → breakOnTicks b = none → breakOnTicks a = none := by
  induction a with
  | nil => intro b _ _; rfl
  | cons c as ih =>
    intro b hab hb
    obtain ⟨tl, rfl⟩ := hab
    have h2 := breakOnTicks_cons_none (by simpa [List.cons_append] using hb)
    have has : breakOnTicks as = none := ih (List.prefix_append as tl) h2.2
    have h3 : isT3 (c :: as) = false := by
      by_cases hh : isT3 (c :: as) = true
      · exact absurd (isT3_of_front c (List.prefix_append as tl) hh) (by simp [h2.1])
      · simpa using hh
    simp only [breakOnTicks, h3, Bool.false_eq_true, if_false, has, Option.map_none']

theorem isT3_extend (c : Char) (cs r : Str) (h : isT3 (c :: cs) = false) :
    isT3 (c :: (cs ++ '\n' :: r)) = false := by
  have hnb : ('\n' = btick) = False := eq_false (by decide)
  cases cs with
  | nil =>
    cases r with
    | nil => rfl
    | cons x r2 => simp [isT3, hnb]
  | cons d cs2 =>
    cases cs2 with
    | nil => simp [isT3, hnb]
    | cons e cs3 => simpa [isT3, List.cons_append] using h

theorem close_ticks : ∀ {a : Str}, breakOnTicks a = none →
    breakOnTicks (a ++ '\n' :: [btick, btick, btick]) = some (a ++ ['\n'], []) := by
  intro a
  induction a with
  | nil => intro _; decide
  | cons c cs ih =>
    intro h
    obtain ⟨h3, hcs⟩ := breakOnTicks_cons_none h
    have h3e := isT3_extend c cs [btick, btick, btick] h3
    have hrec := ih hcs
    simp only [List.cons_append, List.append_eq, breakOnTicks, h3e, Bool.false_eq_true,
      if_false, hrec, Option.map_some']

theorem dropTrailingWs_front : ∀ l : Str, dropTrailingWs l <+: l := by
  intro l
  induction l with
  | nil => exact List.prefix_refl _
  | cons c cs ih =>
    cases hd : dropTrailingWs cs with
    | nil =>
      simp only [dropTrailingWs, hd]
      by_cases hw : isWs c = true
      · rw [if_pos hw]; exact ⟨c :: cs, rfl⟩
      · rw [if_neg hw]; exact ⟨cs, rfl⟩
    | cons d ds =>
      simp only [dropTrailingWs, hd]
      rw [hd] at ih
      obtain ⟨tl, htl⟩ := ih
      exact ⟨tl, by simp [htl]⟩

theorem breakOnTicks_dropWhile {p : Char → Bool} : ∀ {l : Str}, breakOnTicks l = none →
    breakOnTicks (l.dropWhile p) = none := by
  intro l
  induction l with
  | nil => intro h; simpa using h
  | cons c cs ih =>
    intro h
    obtain ⟨h3, hcs⟩ := breakOnTicks_cons_none h
    by_cases hp : p c = true
    · rw [List.dropWhile_cons, if_pos hp]; exact ih hcs
    · rw [List.dropWhile_cons, if_neg hp]; exact h

theorem dropTrailingWs_snoc_ws {c : Char} (hw : isWs c = true) :
    ∀ a : Str, dropTrailingWs (a ++ [c]) = dropTrailingWs a := by
  intro a
  induction a with
  | nil => simp [dropTrailingWs, hw]
  | cons x xs ih => simp only [List.cons_append, List.append_eq, dropTrailingWs, ih]

theorem dropTrailingWs_snoc_nonws {c : Char} (hw : isWs c = false) :
    ∀ a : Str, dropTrailingWs (a ++ [c]) = a ++ [c] := by
  intro a
  induction a with
  | nil => simp [dropTrailingWs, hw]
  | cons x xs ih =>
    obtain ⟨y, ys, hys⟩ := List.exists_cons_of_ne_nil (show xs ++ [c] ≠ [] by simp)
    simp only [List.cons_append, hys] at ih ⊢
    rw [dropTrailingWs, ih]

theorem wrapFence_cons (tag t : Str) :
    wrapFence tag t =
      btick :: btick :: btick :: (tag ++ '\n' :: (t ++ '\n' :: [btick, btick, btick])) := by
  rw [wrapFence, show "```".toList = [btick, btick, btick] from by decide]
  simp [List.cons_append]

theorem wrapFence_snoc (tag t : Str) :
    wrapFence tag t =
      (btick :: btick :: btick :: (tag ++ '\n' :: (t ++ ['\n', btick, btick]))) ++ [btick] := by
  rw [wrapFence_cons]
  simp [List.append_assoc]

theorem jsTrim_wrapFence (tag t : Str) : jsTrim (wrapFence tag t) = wrapFence tag t := by
  have h1 : (wrapFence tag t).dropWhile isWs = wrapFence tag t := by
    rw [wrapFence_cons, List.dropWhile_cons, if_neg (by decide)]
  have h2 : dropTrailingWs (wrapFence tag t) = wrapFence tag t := by
    rw [wrapFence_snoc, dropTrailingWs_snoc_nonws (by decide)]
  unfold jsTrim
  rw [h1, h2]

theorem fenceClose_tail (t : Str) (ht : breakOnTicks t = none) :
    fenceClose ('\n' :: (t ++ '\n' :: [btick, btick, btick])) = some (jsTrim t) := by
  unfold fenceClose
  rw [List.dropWhile_cons, if_pos (by decide), List.dropWhile_append]
  by_cases hE : (t.dropWhile isWs).isEmpty = true
  · rw [if_pos hE]
    have ht' : t.dropWhile isWs = [] := by simpa [List.isEmpty_iff] using hE
    have : List.dropWhile isWs ('\n' :: [btick, btick, btick]) = [btick, btick, btick] := by
      decide
    rw [this, show breakOnTicks [btick, btick, btick] = some ([], []) from by decide]
    simp [jsTrim, ht', dropTrailingWs]
  · rw [if_neg hE]
    have hbt' : breakOnTicks (t.dropWhile isWs) = none := breakOnTicks_dropWhile ht
    rw [close_ticks hbt']
    show some (dropTrailingWs (t.dropWhile isWs ++ ['\n'])) = some (jsTrim t)
    rw [dropTrailingWs_snoc_ws (show isWs '\n' = true from by decide) (t.dropWhile isWs)]
    rfl

theorem fenceMatch_wrap (tag t : Str) (htag : tag = "json".toList ∨ tag = [])
    (ht : breakOnTicks t = none) :
    fenceMatch (wrapFence tag t) = some (jsTrim t) := by
  have hbt : breakOnTicks (wrapFence tag t) =
      some ([], tag ++ '\n' :: (t ++ '\n' :: [btick, btick, btick])) := by
    rw [wrapFence_cons]
    simp [breakOnTicks, isT3]
  simp only [fenceMatch, hbt, List.nil_append]
  rcases htag with rfl | rfl
  · have hjson : "json".toList = ['j', 's', 'o', 'n'] := by decide
    have hpre : "json".toList.isPrefixOf
        ("json".toList ++ '\n' :: (t ++ '\n' :: [btick, btick, btick])) = true := by
      rw [hjson]; simp [List.isPrefixOf]
    rw [if_pos hpre, hjson]
    simp only [List.cons_append, List.nil_append, List.drop_succ_cons, List.drop_zero]
    exact fenceClose_tail t ht
  · have hpre : "json".toList.isPrefixOf
        ('\n' :: (t ++ '\n' :: [btick, btick, btick])) = false := by
      simp [List.isPrefixOf]
    rw [if_neg (by simp [hpre])]
    exact fenceClose_tail t ht

theorem fenceMatch_trim_none (t : Str) (ht : breakOnTicks t = none) :
    fenceMatch (jsTrim t) = none := by
  have hb : breakOnTicks (jsTrim t) = none :=
    breakOnTicks_none_of_front (dropTrailingWs_front _) (breakOnTicks_dropWhile ht)
  unfold fenceMatch
  rw [hb]

theorem extractJsonText_wrap (tag t : Str) (htag : tag = "json".toList ∨ tag = [])
    (ht : breakOnTicks t = none) :
    extractJsonText (wrapFence tag t) = extractJsonText t := by
  simp only [extractJsonText]
  rw [jsTrim_wrapFence, fenceMatch_wrap tag t htag ht, fenceMatch_trim_none t ht]

/-- Claim C6, counterexample: for the JSON-array text `["```"]` (an array
holding the string of three backticks, so itself containing a triple
backtick), the fenced input parses to nothing while the unfenced input
parses to one record, because the regex closes the fence at the backticks
inside the JSON string. -/
theorem parseCategories_fence_counterexample :
    jsonParse "[\"```\"]".toList = some (.jarr [.jstr "```".toList]) ∧
    parseCategories (wrapFence "json".toList "[\"```\"]".toList) ≠
      parseCategories "[\"```\"]".toList := by
  decide

/-- Claim C6, amended: for every text that does not itself contain a triple
backtick (the counterexample forces this proviso — in particular for every
JSON-array text without one), `parseCategories` of the text wrapped in a
single markdown code fence, with or without the `json` language tag,
equals `parseCategories` of the unwrapped text. -/
theorem parseCategories_fence_invariant (t tag : Str)
    (htag : tag = "json".toList ∨ tag = []) (ht : breakOnTicks t = none) :
    parseCategories (wrapFence tag t) = parseCategories t := by
  unfold parseCategories
  rw [extractJsonText_wrap tag t htag ht]

/-- Witness for the amended C6 theorem at a concrete JSON array. -/
theorem parseCategories_fence_invariant_witness :
    parseCategories (wrapFence "json".toList "[1]".toList) = parseCategories "[1]".toList :=
  parseCategories_fence_invariant "[1]".toList "json".toList (Or.inl rfl) (by decide)

/-- Claim C7: whenever the fence-stripped text is not valid JSON or is
valid JSON that is not an array, `parseCategories` returns the empty
collection (and, being a total function, raises no error). -/
theorem parseCategories_degrades (s : Str)
    (h : ∀ xs : List JSVal, jsonParse (extractJsonText s) ≠ some (.jarr xs)) :
    parseCategories s = [] := by
  unfold parseCategories
  cases hp : jsonParse (extractJsonText s) with
  | none => rfl
  | some v =>
    cases v with
    | jarr xs => exact absurd hp (h xs)
    | jundefined => rfl
    | jnull => rfl
    | jbool b => rfl
    | jnum n => rfl
    | jstr s2 => rfl
    | jobj fs => rfl

/-- Witness for C7 at a concrete non-JSON response. -/
theorem parseCategories_degrades_witness :
    parseCategories "The requests are:".toList = [] :=
  parseCategories_degrades "The requests are:".toList (by
    intro xs hx
    have hnone : jsonParse (extractJsonText "The requests are:".toList) = none := by decide
    rw [hnone] at hx
    exact Option.noConfusion hx)

/-- Claim C5, counterexample: an element whose `category` field is present
but holds the empty string (a falsy value) yields the default
`"Uncategorized"`, not the present value, because the source uses `||`
defaulting; so "present fields are passed through" fails as stated. -/
theorem parseCategories_falsy_field_counterexample :
    jsonParse (extractJsonText "[\x7b\"index\":0,\"category\":\"\"\x7d]".toList) =
      some (.jarr [.jobj [("index".toList, .jnum 0), ("category".toList, .jstr [])]]) ∧
    parseCategories "[\x7b\"index\":0,\"category\":\"\"\x7d]".toList =
      [⟨.jnum 0, .jstr "Uncategorized".toList, .jstr "low".toList,
        .jstr "No reasoning provided".toList, .jstr "❓".toList⟩] ∧
    JSVal.jstr "Uncategorized".toList ≠ JSVal.jstr [] := by
  decide

/-- Claim C5, amended: the concrete example of the claim holds
(`[{"index":0,"category":"Auth"}]` yields index 0, category `"Auth"` and
the three defaults), and in general each output field is the field value
of the element when that value is truthy and the documented default when the
field is missing or falsy (`index` is passed through unconditionally,
with no default). -/
theorem parseCategories_field_defaults :
    parseCategories "[\x7b\"index\":0,\"category\":\"Auth\"\x7d]".toList =
      [⟨.jnum 0, .jstr "Auth".toList, .jstr "low".toList,
        .jstr "No reasoning provided".toList, .jstr "❓".toList⟩] ∧
    (∀ (fs : List (Str × JSVal)) (r : CategoryRecord), catRecord (.jobj fs) = some r →
      r.index = (alookup fs "index".toList).getD .jundefined ∧
      r.category =
        jsOr ((alookup fs "category".toList).getD .jundefined) (.jstr "Uncategorized".toList) ∧
      r.confidence = jsOr ((alookup fs "confidence".toList).getD .jundefined) (.jstr "low".toList) ∧
      r.reasoning =
        jsOr ((alookup fs "reasoning".toList).getD .jundefined)
          (.jstr "No reasoning provided".toList) ∧
      r.icon = jsOr ((alookup fs "icon".toList).getD .jundefined) (.jstr "❓".toList)) ∧
    (∀ v d : JSVal, (jsTruthy v = true → jsOr v d = v) ∧ (jsTruthy v = false → jsOr v d = d)) := by
  refine ⟨by decide, ?_, ?_⟩
  · intro fs r h
    have hc : catRecord (.jobj fs) = some
        ⟨(alookup fs "index".toList).getD .jundefined,
         jsOr ((alookup fs "category".toList).getD .jundefined) (.jstr "Uncategorized".toList),
         jsOr ((alookup fs "confidence".toList).getD .jundefined) (.jstr "low".toList),
         jsOr ((alookup fs "reasoning".toList).getD .jundefined)
           (.jstr "No reasoning provided".toList),
         jsOr ((alookup fs "icon".toList).getD .jundefined) (.jstr "❓".toList)⟩ := rfl
    rw [hc] at h
    injection h with h2
    subst h2
    exact ⟨rfl, rfl, rfl, rfl, rfl⟩
  · intro v d
    constructor <;> intro hv <;> simp [jsOr, hv]

/-- Witness for the amended C5 theorem at an element whose category field
is present but falsy. -/
theorem parseCategories_field_defaults_witness :
    CategoryRecord.category
        ⟨.jundefined, .jstr "Uncategorized".toList, .jstr "low".toList,
          .jstr "No reasoning provided".toList, .jstr "❓".toList⟩ =
      jsOr ((alookup [("category".toList, JSVal.jstr [])] "category".toList).getD .jundefined)
        (.jstr "Uncategorized".toList) :=
  (parseCategories_field_defaults.2.1 [("category".toList, JSVal.jstr [])]
      ⟨.jundefined, .jstr "Uncategorized".toList, .jstr "low".toList,
        .jstr "No reasoning provided".toList, .jstr "❓".toList⟩ (by decide)).2.1

end RepAI
